import Mathlib

/-!
A verification development for the `zcrab` snapshot-retention daemon.

The Rust sources are embedded shallowly:

* timestamps (`chrono::DateTime<Utc>`) become `Int` seconds since the Unix
  epoch; the watermark `DateTime::from_timestamp_millis(0)` becomes `0`;
* `std::time::Duration` values become `Nat` seconds;
* strings become `List Char` so that every operation evaluates inside the
  kernel; `String::contains('@')` becomes list membership and
  `split_once('@').0` becomes `takeWhile (· ≠ '@')`;
* `HashSet`/`HashMap` become `Finset` / an optional-valued lookup function
  (value equality replaces hash identity: the Rust sets hash the pointed-to
  values, so equal metadata collapses there exactly as it does here);
* the wall clock `Utc::now()` becomes an explicit `now : Int` argument;
* the external `zfs` subprocess becomes an explicit success flag plus the
  list of commands that would be issued.
-/

/-- `SnapshotMetadata` from `src/zfs.rs`: snapshot name, creation time
(seconds since the Unix epoch) and space used in bytes. -/
structure SnapshotMetadata where
  name : List Char
  created : Int
  used : Nat
deriving DecidableEq, Repr

/-- `RetentionRule` from `src/policy.rs`: keep `retained_copies` snapshots
spaced `snapshot_period` seconds apart. -/
structure RetentionRule where
  snapshot_period : Nat
  retained_copies : Nat
deriving DecidableEq, Repr

/-- `RetentionPolicy` from `src/policy.rs`: a vector of retention rules. -/
structure RetentionPolicy where
  rules : List RetentionRule
deriving DecidableEq, Repr

/-- Stable insertion (by creation time, ascending): a later-arriving element
goes after every already-placed element that is at most as new. -/
def insertByCreated (s : SnapshotMetadata) : List SnapshotMetadata → List SnapshotMetadata
  | [] => [s]
  | t :: rest =>
    if t.created ≤ s.created then t :: insertByCreated s rest else s :: t :: rest

/-- The `Ord for SnapshotMetadata` comparison of `src/zfs.rs` (by creation
time), applied by `sort()`: a stable ascending sort, oldest first.  Rust's
`sort` is a stable sort by the same key, and a stable sort's output is
determined by key and input order, so this insertion sort is that sort. -/
def sortSnapshots (l : List SnapshotMetadata) : List SnapshotMetadata :=
  l.foldl (fun acc s => insertByCreated s acc) []

/-- Stable insertion by period, descending. -/
def insertRuleDesc (r : RetentionRule) : List RetentionRule → List RetentionRule
  | [] => [r]
  | t :: rest =>
    if r.snapshot_period ≤ t.snapshot_period then t :: insertRuleDesc r rest
    else r :: t :: rest

/-- The rule ordering of `src/policy.rs` (`Ord for RetentionRule`, by
period) applied with a reversed comparator, as in
`rules_longest_resention_first.sort_by(|a, b| b.cmp(a))`: a stable
descending sort by period. -/
def sortRulesDesc (rules : List RetentionRule) : List RetentionRule :=
  rules.foldl (fun acc r => insertRuleDesc r acc) []

/-- The inner sweep of `not_too_old` in `src/policy.rs`: walk the list with a
`keep_next_newer_than` watermark `wm`; a snapshot created at or after the
watermark is counted and advances the watermark to `created + period`. -/
def sweepCount (period : Nat) : List SnapshotMetadata → Int → Nat
  | [], _ => 0
  | s :: rest, wm =>
    if wm ≤ s.created then sweepCount period rest (s.created + period) + 1
    else sweepCount period rest wm

/-- The `skip_first_n` computation of `not_too_old` in `src/policy.rs`: the
first index `n` whose epoch-initialised sweep counts at most
`retained_copies` snapshots; `0` when no index in range qualifies (the
`skip_first_n` variable keeps its initial value). -/
def cutPoint (rule : RetentionRule) (snaps : List SnapshotMetadata) : Nat :=
  ((List.range snaps.length).find? fun n =>
    decide (sweepCount rule.snapshot_period (snaps.drop n) 0 ≤ rule.retained_copies)).getD 0

/-- `not_too_old` from `src/policy.rs`: drop the snapshots before the cut
point. -/
def not_too_old (snapshots_oldest_first : List SnapshotMetadata) (rule : RetentionRule) :
    List SnapshotMetadata :=
  snapshots_oldest_first.drop (cutPoint rule snapshots_oldest_first)

/-- The retention loop of `RetentionRule::rejects` in `src/policy.rs`: sweep
with a `retain_next_newer_than` watermark; collect each snapshot created at
or after the watermark (those are the ones removed from `to_remove`) and
advance the watermark to `created + period`. -/
def phase2Retained (period : Nat) : List SnapshotMetadata → Int → List SnapshotMetadata
  | [], _ => []
  | s :: rest, wm =>
    if wm ≤ s.created then s :: phase2Retained period rest (s.created + period)
    else phase2Retained period rest wm

/-- `RetentionRule::rejects` from `src/policy.rs`: start from the set of all
input snapshots and remove the ones the watermark sweep over `not_too_old`
retains. -/
def RetentionRule.rejects (rule : RetentionRule) (snapshots_oldest_first : List SnapshotMetadata) :
    Finset SnapshotMetadata :=
  snapshots_oldest_first.toFinset \
    (phase2Retained rule.snapshot_period
      (not_too_old snapshots_oldest_first rule) 0).toFinset

/-- `RetentionRule::next_snapshot_in` from `src/policy.rs`: sort the
snapshots oldest first, take the last element of `not_too_old`, add the
period, subtract `now` and clamp below at zero (`to_std().unwrap_or(ZERO)`);
`none` when `not_too_old` has no last element. -/
def RetentionRule.next_snapshot_in (rule : RetentionRule) (now : Int)
    (snapshots : List SnapshotMetadata) : Option Nat :=
  (not_too_old (sortSnapshots snapshots) rule).getLast?.map
    fun s => (s.created + rule.snapshot_period - now).toNat

/-- `RetentionPolicy::next_snapshot_in` from `src/policy.rs`: the minimum of
the per-rule results, skipping rules that return `None` (`filter_map` +
`min`).  The sorted copy the source builds on its first two lines is unused
there, so it does not appear here. -/
def RetentionPolicy.next_snapshot_in (p : RetentionPolicy) (now : Int)
    (snapshots : List SnapshotMetadata) : Option Nat :=
  (p.rules.filterMap fun rule => rule.next_snapshot_in now snapshots).min?

/-- `Judgement` from `src/policy.rs`.  `retained` models the
`HashMap<&SnapshotMetadata, HashSet<&RetentionRule>>` as a lookup function
(`none` = key absent). -/
structure Judgement where
  rejected : Finset SnapshotMetadata
  retained : SnapshotMetadata → Option (Finset RetentionRule)

/-- The initial `Judgement` built in `RetentionPolicy::judge`: empty
`rejected`, and every input snapshot mapped to the full rule set. -/
def judgeInit (rules : List RetentionRule) (snaps : List SnapshotMetadata) : Judgement where
  rejected := ∅
  retained := fun s => if s ∈ snaps then some rules.toFinset else none

/-- The body of the inner loop of `RetentionPolicy::judge` for one snapshot
`s` rejected by `rule`: remove the map entry, erase the rule from its
retainer set, then either record the snapshot as rejected (empty retainer
set) or re-insert the shrunken retainer set. -/
def judgeStep (rule : RetentionRule) (j : Judgement) (s : SnapshotMetadata) : Judgement :=
  match j.retained s with
  | none => j
  | some retainers =>
    let retainers' := retainers.erase rule
    if retainers' = ∅ then
      { rejected := insert s j.rejected
        retained := fun x => if x = s then none else j.retained x }
    else
      { rejected := j.rejected
        retained := fun x => if x = s then some retainers' else j.retained x }

/-- An enumeration of `rule.rejects snaps` for the inner `for snapshot in
rule.rejects(..)` loop of `RetentionPolicy::judge`.  The Rust `HashSet`
iterates in an unspecified order; the per-snapshot updates touch disjoint
keys, so any duplicate-free enumeration of the same set is faithful. -/
def rejectsIter (rule : RetentionRule) (snaps : List SnapshotMetadata) :
    List SnapshotMetadata :=
  snaps.dedup.filter fun s => decide (s ∈ rule.rejects snaps)

/-- One iteration of the outer rule loop of `RetentionPolicy::judge`. -/
def processRule (snaps : List SnapshotMetadata) (j : Judgement) (rule : RetentionRule) :
    Judgement :=
  (rejectsIter rule snaps).foldl (judgeStep rule) j

/-- The rule-processing loop of `RetentionPolicy::judge`, applied to an
already oldest-first snapshot list and an explicitly ordered rule list. -/
def judgeCore (rules : List RetentionRule) (snapsOldestFirst : List SnapshotMetadata) :
    Judgement :=
  rules.foldl (processRule snapsOldestFirst) (judgeInit rules snapsOldestFirst)

/-- `RetentionPolicy::judge` from `src/policy.rs`: sort the rules longest
period first and the snapshots oldest first, then run the rule loop. -/
def RetentionPolicy.judge (p : RetentionPolicy)
    (snapshots_newest_first : List SnapshotMetadata) : Judgement :=
  judgeCore (sortRulesDesc p.rules) (sortSnapshots snapshots_newest_first)

/-- The key set of the `retained` map of a `Judgement`, relative to the
snapshot list the judgement was computed from (the map's keys are always
drawn from that list). -/
def Judgement.retainedKeys (j : Judgement) (snaps : List SnapshotMetadata) :
    Finset SnapshotMetadata :=
  snaps.toFinset.filter fun s => (j.retained s).isSome

/-- The `dataset()` accessor of `SnapshotMetadata` in `src/zfs.rs`: the part
of the name before the first `'@'` (`split_once('@').0`).  The source
`expect`s that an `'@'` is present ("Snapshot names always contain @"); on a
name without one this total model returns the whole name where the source
would panic. -/
def SnapshotMetadata.dataset (s : SnapshotMetadata) : List Char :=
  s.name.takeWhile fun c => decide (c ≠ '@')

/-- A command issued to the external `zfs` tool (`call_do` in
`src/zfs.rs`). -/
structure ZfsCommand where
  action : List Char
  args : List (List Char)
deriving DecidableEq, Repr

/-- `call_do` from `src/zfs.rs`: issue the command; the result reflects the
subprocess exit status, modelled by the explicit `success` flag. -/
def call_do (success : Bool) (action : List Char) (args : List (List Char)) :
    Except (List Char) Unit × List ZfsCommand :=
  (if success then Except.ok () else Except.error "zfs command error".toList,
   [⟨action, args⟩])

/-- `destroy_snapshot` from `src/zfs.rs`: refuse names that do not contain
`'@'` without issuing any command; otherwise run `zfs destroy <name>`. -/
def destroy_snapshot (success : Bool) (s : SnapshotMetadata) :
    Except (List Char) Unit × List ZfsCommand :=
  if '@' ∈ s.name then call_do success "destroy".toList [s.name]
  else (Except.error "Tried to destroy something that is not a snapshot".toList, [])

/-- `ConfiguredDataSet` from `src/zfs.rs`: a dataset path, its retention
policy and its snapshot list (stored newest first). -/
structure ConfiguredDataSet where
  path : List Char
  retention_policy : RetentionPolicy
  sorted_snapshots : List SnapshotMetadata
deriving DecidableEq, Repr

/-- `RetentionPolicy::shortest_period` from `src/tomato.rs` (the policy type
`src/main.rs` uses): the minimum period over the rules.  The source
`expect`s a non-empty policy; the `getD 0` default is never reached under
that invariant. -/
def RetentionPolicy.shortest_period (p : RetentionPolicy) : Nat :=
  ((p.rules.map fun r => r.snapshot_period).min?).getD 0

/-- `SnapshotMetadata::elapsed` from `src/zfs.rs`:
`now - created`, clamped below at zero (`to_std().unwrap_or(ZERO)`). -/
def SnapshotMetadata.elapsed (s : SnapshotMetadata) (now : Int) : Nat :=
  (now - s.created).toNat

/-- The running maximum of the `max_by_key` fold: `m` is the best element
seen so far; a later element at least as new replaces it (Rust's
`max_by_key` keeps the last of several equal maxima). -/
def maxByCreatedFrom (m : SnapshotMetadata) : List SnapshotMetadata → SnapshotMetadata
  | [] => m
  | s :: rest => maxByCreatedFrom (if m.created ≤ s.created then s else m) rest

/-- The `max_by_key(|snapshot| snapshot.created)` call of
`until_next_snapshot` in `src/main.rs`. -/
def maxByCreated : List SnapshotMetadata → Option SnapshotMetadata
  | [] => none
  | s :: rest => some (maxByCreatedFrom s rest)

/-- `until_next_snapshot` from `src/main.rs`: for each dataset, keep only the
snapshots whose name says they belong to it, take the newest, and pair the
dataset with `shortest_period - elapsed(newest)` (saturating); datasets
without such a snapshot are skipped by the `filter_map`. -/
def until_next_snapshot (now : Int) (datasets : List ConfiguredDataSet) :
    List (Nat × ConfiguredDataSet) :=
  datasets.filterMap fun dataset =>
    (maxByCreated (dataset.sorted_snapshots.filter
        fun s => decide (s.dataset = dataset.path))).map
      fun newest =>
        (dataset.retention_policy.shortest_period - newest.elapsed now, dataset)

/-- `duration_until_next_snapshot_needed` from `src/main.rs`: the minimum of
the per-dataset durations. -/
def duration_until_next_snapshot_needed (now : Int) (datasets : List ConfiguredDataSet) :
    Option Nat :=
  ((until_next_snapshot now datasets).map Prod.fst).min?

/-- The sleep the `daemon` loop of `src/main.rs` performs each cycle:
`duration_until_next_snapshot_needed` with a 10-minute (600-second)
fallback. -/
def daemon_sleep (now : Int) (datasets : List ConfiguredDataSet) : Nat :=
  (duration_until_next_snapshot_needed now datasets).getD (60 * 10)

/-- `need_snapshot` from `src/main.rs`: the paths of the datasets whose
`until_next_snapshot` entry is zero; these are exactly the datasets the
daemon issues a create-snapshot (`zfs::snapshot`) command for. -/
def need_snapshot (now : Int) (datasets : List ConfiguredDataSet) : List (List Char) :=
  ((until_next_snapshot now datasets).filter fun pr => decide (pr.1 = 0)).map
    fun pr => pr.2.path

/-- The per-volume due time of spec §4.2, built from the engine of
`src/policy.rs` (`RetentionPolicy::next_snapshot_in`), taken to its global
minimum across the configured volumes with the 10-minute fallback of
§4.3 — the quantity claim C5 says the daemon sleeps for. -/
def spec_sleep (now : Int) (datasets : List ConfiguredDataSet) : Nat :=
  ((datasets.filterMap fun d =>
      d.retention_policy.next_snapshot_in now d.sorted_snapshots).min?).getD (60 * 10)

/-- The effect of `judgeStep` on the retainer set of its own key (proof
helper; the connection to `judgeStep` is proved below). -/
def stepRet (rule : RetentionRule) : Option (Finset RetentionRule) → Option (Finset RetentionRule)
  | none => none
  | some retainers =>
    if retainers.erase rule = ∅ then none else some (retainers.erase rule)

/-- Whether `judgeStep` moves its own key into `rejected` (proof helper). -/
def stepRej (rule : RetentionRule) : Option (Finset RetentionRule) → Prop
  | none => False
  | some retainers => retainers.erase rule = ∅

/-- The retainer set a snapshot `s` still has after the rules in `done` have
been processed by the `judge` loop: the full rule set minus the processed
rules that reject `s` (proof helper for the loop invariant). -/
def survivors (rules done : List RetentionRule) (l : List SnapshotMetadata)
    (s : SnapshotMetadata) : Finset RetentionRule :=
  rules.toFinset.filter fun r => ¬(r ∈ done ∧ s ∈ r.rejects l)

/-- Loop invariant of `RetentionPolicy::judge`: after processing the rules
in `done`, a snapshot outside the input is tracked nowhere; a snapshot of
the input is rejected exactly when its surviving retainer set has been
erased to empty (which requires at least one rule to exist), and otherwise
is retained with exactly its surviving retainer set. -/
def JudgeInv (rules done : List RetentionRule) (l : List SnapshotMetadata)
    (j : Judgement) : Prop :=
  ∀ s, (s ∉ l → j.retained s = none ∧ s ∉ j.rejected) ∧
    (s ∈ l →
      (survivors rules done l s = ∅ ∧ rules ≠ [] →
        j.retained s = none ∧ s ∈ j.rejected) ∧
      (¬(survivors rules done l s = ∅ ∧ rules ≠ []) →
        j.retained s = some (survivors rules done l s) ∧ s ∉ j.rejected))

lemma natMin?_eq_some_iff {xs : List Nat} {a : Nat} :
    xs.min? = some a ↔ a ∈ xs ∧ ∀ b ∈ xs, a ≤ b :=
  List.min?_eq_some_iff (fun a => Nat.le_refl a)
    (fun a b => Nat.min_def ▸ by split <;> simp) (fun _ _ _ => Nat.le_min)

lemma toFinset_eq_of_perm {α : Type} [DecidableEq α] {l₁ l₂ : List α} (h : l₁.Perm l₂) :
    l₁.toFinset = l₂.toFinset := by
  ext s
  simp [List.mem_toFinset, h.mem_iff]

lemma insertByCreated_perm (s : SnapshotMetadata) (l : List SnapshotMetadata) :
    (insertByCreated s l).Perm (s :: l) := by
  induction l with
  | nil => simp [insertByCreated]
  | cons t rest ih =>
    rw [insertByCreated]
    split
    · exact (ih.cons t).trans (List.Perm.swap s t rest)
    · exact List.Perm.refl _

lemma foldl_insertByCreated_perm (l : List SnapshotMetadata) :
    ∀ acc, (l.foldl (fun acc s => insertByCreated s acc) acc).Perm (l ++ acc) := by
  induction l with
  | nil => intro acc; simp
  | cons s rest ih =>
    intro acc
    have h1 := ih (insertByCreated s acc)
    have h2 : (rest ++ insertByCreated s acc).Perm (rest ++ s :: acc) :=
      List.Perm.append_left rest (insertByCreated_perm s acc)
    have h3 : (rest ++ s :: acc).Perm (s :: (rest ++ acc)) := List.perm_middle
    exact ((h1.trans h2).trans h3)

lemma sortSnapshots_perm (l : List SnapshotMetadata) : (sortSnapshots l).Perm l := by
  have h := foldl_insertByCreated_perm l []
  simpa [sortSnapshots] using h

lemma mem_sortSnapshots {s : SnapshotMetadata} {l : List SnapshotMetadata} :
    s ∈ sortSnapshots l ↔ s ∈ l :=
  (sortSnapshots_perm l).mem_iff

lemma insertByCreated_pairwise {s : SnapshotMetadata} {l : List SnapshotMetadata}
    (h : l.Pairwise fun a b => a.created ≤ b.created) :
    (insertByCreated s l).Pairwise fun a b => a.created ≤ b.created := by
  induction l with
  | nil => simp [insertByCreated]
  | cons t rest ih =>
    rw [List.pairwise_cons] at h
    rw [insertByCreated]
    split
    · rename_i hts
      rw [List.pairwise_cons]
      refine ⟨fun x hx => ?_, ih h.2⟩
      rcases List.mem_cons.mp ((insertByCreated_perm s rest).mem_iff.mp hx) with hx | hx
      · exact hx ▸ hts
      · exact h.1 x hx
    · rename_i hts
      rw [List.pairwise_cons]
      refine ⟨fun x hx => ?_, List.pairwise_cons.mpr h⟩
      rcases List.mem_cons.mp hx with hx | hx
      · subst hx; omega
      · have := h.1 x hx; omega

lemma sortSnapshots_sorted (l : List SnapshotMetadata) :
    (sortSnapshots l).Pairwise fun a b => a.created ≤ b.created := by
  rw [sortSnapshots]
  have : ∀ acc : List SnapshotMetadata, (acc.Pairwise fun a b => a.created ≤ b.created) →
      (l.foldl (fun acc s => insertByCreated s acc) acc).Pairwise
        fun a b => a.created ≤ b.created := by
    induction l with
    | nil => intro acc hacc; simpa using hacc
    | cons s rest ih => intro acc hacc; exact ih _ (insertByCreated_pairwise hacc)
  exact this [] (by simp)

lemma insertRuleDesc_perm (r : RetentionRule) (l : List RetentionRule) :
    (insertRuleDesc r l).Perm (r :: l) := by
  induction l with
  | nil => simp [insertRuleDesc]
  | cons t rest ih =>
    rw [insertRuleDesc]
    split
    · exact (ih.cons t).trans (List.Perm.swap r t rest)
    · exact List.Perm.refl _

lemma sortRulesDesc_perm (rules : List RetentionRule) : (sortRulesDesc rules).Perm rules := by
  have h : ∀ acc, ((rules.foldl (fun acc r => insertRuleDesc r acc) acc)).Perm (rules ++ acc) := by
    induction rules with
    | nil => intro acc; simp
    | cons r rest ih =>
      intro acc
      have h1 := ih (insertRuleDesc r acc)
      have h2 : (rest ++ insertRuleDesc r acc).Perm (rest ++ r :: acc) :=
        List.Perm.append_left rest (insertRuleDesc_perm r acc)
      have h3 : (rest ++ r :: acc).Perm (r :: (rest ++ acc)) := List.perm_middle
      exact (h1.trans h2).trans h3
  simpa [sortRulesDesc] using h []

lemma mem_sortRulesDesc {r : RetentionRule} {rules : List RetentionRule} :
    r ∈ sortRulesDesc rules ↔ r ∈ rules :=
  (sortRulesDesc_perm rules).mem_iff

/-- C7: `destroy_snapshot` refuses identifiers that are not structurally
snapshots (no `'@'`) with an error and no issued command, and issues exactly
the one destroy command otherwise. -/
theorem destroy_snapshot_guard (success : Bool) (s : SnapshotMetadata) :
    ('@' ∉ s.name →
      (∃ e, (destroy_snapshot success s).1 = Except.error e) ∧
        (destroy_snapshot success s).2 = []) ∧
    ('@' ∈ s.name →
      (destroy_snapshot success s).2 = [⟨"destroy".toList, [s.name]⟩]) := by
  constructor
  · intro h
    rw [destroy_snapshot, if_neg h]
    exact ⟨⟨_, rfl⟩, rfl⟩
  · intro h
    rw [destroy_snapshot, if_pos h]
    rfl

theorem destroy_snapshot_guard_witness :
    ((∃ e, (destroy_snapshot true ⟨"foo".toList, 0, 0⟩).1 = Except.error e) ∧
      (destroy_snapshot true ⟨"foo".toList, 0, 0⟩).2 = []) ∧
    (destroy_snapshot true ⟨"a@b".toList, 5, 0⟩).2 =
      [⟨"destroy".toList, ["a@b".toList]⟩] :=
  ⟨(destroy_snapshot_guard true ⟨"foo".toList, 0, 0⟩).1 (by decide),
   (destroy_snapshot_guard true ⟨"a@b".toList, 5, 0⟩).2 (by decide)⟩

/-- C9: with the single rule "retain 2 copies per 10 minutes" and two
snapshots created 5 and 3 minutes before `now = 1000`, `judge` puts the
3-minute-old snapshot — the newest of the input — into `rejected`: the
engine gives no special protection to the most recent snapshot. -/
theorem judge_rejects_newest_example :
    ((⟨"v@b".toList, 820, 0⟩ : SnapshotMetadata) ∈
      (RetentionPolicy.judge ⟨[⟨600, 2⟩]⟩
        [⟨"v@a".toList, 700, 0⟩, ⟨"v@b".toList, 820, 0⟩]).rejected) ∧
    ∀ s ∈ [(⟨"v@a".toList, 700, 0⟩ : SnapshotMetadata), ⟨"v@b".toList, 820, 0⟩],
      s.created ≤ 820 := by
  decide

/-- C10: with `retained_copies = 0` and a non-empty oldest-first list whose
creation times are at or after the epoch, no candidate index satisfies the
count-at-most-zero cut condition, so `not_too_old` returns the whole input,
and the oldest snapshot is not rejected: a zero-copies rule still retains at
least one snapshot. -/
theorem zero_copies_keeps_oldest (rule : RetentionRule) (l : List SnapshotMetadata)
    (h0 : rule.retained_copies = 0) (hne : l ≠ [])
    (hsorted : l.Pairwise fun a b => a.created ≤ b.created)
    (hepoch : ∀ s ∈ l, 0 ≤ s.created) :
    not_too_old l rule = l ∧ ∀ s, l.head? = some s → s ∉ rule.rejects l := by
  have hcut : cutPoint rule l = 0 := by
    rw [cutPoint, List.find?_eq_none.mpr ?_]
    · rfl
    · intro n hn
      rw [List.mem_range] at hn
      rw [List.drop_eq_getElem_cons hn, sweepCount,
        if_pos (hepoch _ (List.getElem_mem hn))]
      simp [h0]
  have hnto : not_too_old l rule = l := by rw [not_too_old, hcut, List.drop_zero]
  refine ⟨hnto, fun s hs => ?_⟩
  match l, hs with
  | s :: rest, rfl =>
    have hcreated : (0 : Int) ≤ s.created := hepoch s (List.mem_cons_self s rest)
    have hmem : s ∈ phase2Retained rule.snapshot_period (s :: rest) 0 := by
      rw [phase2Retained, if_pos hcreated]
      exact List.mem_cons_self s _
    rw [RetentionRule.rejects, hnto, Finset.mem_sdiff]
    rintro ⟨-, habs⟩
    exact habs (List.mem_toFinset.mpr hmem)

theorem zero_copies_keeps_oldest_witness :
    not_too_old
        [(⟨"a@x".toList, 10, 0⟩ : SnapshotMetadata), ⟨"a@y".toList, 700, 0⟩] ⟨600, 0⟩ =
      [⟨"a@x".toList, 10, 0⟩, ⟨"a@y".toList, 700, 0⟩] ∧
    ∀ s, ([(⟨"a@x".toList, 10, 0⟩ : SnapshotMetadata),
        ⟨"a@y".toList, 700, 0⟩] : List SnapshotMetadata).head? = some s →
      s ∉ RetentionRule.rejects ⟨600, 0⟩
        [⟨"a@x".toList, 10, 0⟩, ⟨"a@y".toList, 700, 0⟩] :=
  zero_copies_keeps_oldest ⟨600, 0⟩ _ rfl (by decide) (by decide) (by decide)

lemma judgeStep_retained_other (rule : RetentionRule) (j : Judgement)
    (s x : SnapshotMetadata) (h : x ≠ s) :
    (judgeStep rule j s).retained x = j.retained x := by
  unfold judgeStep
  cases hr : j.retained s with
  | none => rfl
  | some retainers =>
    dsimp only
    split <;> simp [h]

lemma judgeStep_rejected_other (rule : RetentionRule) (j : Judgement)
    (s x : SnapshotMetadata) (h : x ≠ s) :
    (x ∈ (judgeStep rule j s).rejected ↔ x ∈ j.rejected) := by
  unfold judgeStep
  cases hr : j.retained s with
  | none => exact Iff.rfl
  | some retainers =>
    dsimp only
    split
    · simp [h]
    · exact Iff.rfl

lemma judgeStep_retained_self (rule : RetentionRule) (j : Judgement)
    (x : SnapshotMetadata) :
    (judgeStep rule j x).retained x = stepRet rule (j.retained x) := by
  unfold judgeStep stepRet
  cases hr : j.retained x with
  | none => exact hr
  | some retainers =>
    dsimp only
    split <;> simp

lemma judgeStep_rejected_self (rule : RetentionRule) (j : Judgement)
    (x : SnapshotMetadata) :
    (x ∈ (judgeStep rule j x).rejected ↔ stepRej rule (j.retained x) ∨ x ∈ j.rejected) := by
  unfold judgeStep stepRej
  cases hr : j.retained x with
  | none => simp
  | some retainers =>
    dsimp only
    split
    · rename_i hemp
      simp [hemp]
    · rename_i hemp
      simp [hemp]

lemma foldl_judgeStep_not_mem (rule : RetentionRule) (xs : List SnapshotMetadata)
    (j : Judgement) (x : SnapshotMetadata) (h : x ∉ xs) :
    (xs.foldl (judgeStep rule) j).retained x = j.retained x ∧
    (x ∈ (xs.foldl (judgeStep rule) j).rejected ↔ x ∈ j.rejected) := by
  induction xs generalizing j with
  | nil => exact ⟨rfl, Iff.rfl⟩
  | cons y rest ih =>
    rw [List.mem_cons, not_or] at h
    rw [List.foldl_cons]
    obtain ⟨ih1, ih2⟩ := ih (judgeStep rule j y) h.2
    exact ⟨ih1.trans (judgeStep_retained_other rule j y x h.1),
      ih2.trans (judgeStep_rejected_other rule j y x h.1)⟩

lemma foldl_judgeStep_mem (rule : RetentionRule) (xs : List SnapshotMetadata)
    (x : SnapshotMetadata) (hmem : x ∈ xs) (hnd : xs.Nodup) : ∀ j : Judgement,
    (xs.foldl (judgeStep rule) j).retained x = stepRet rule (j.retained x) ∧
    (x ∈ (xs.foldl (judgeStep rule) j).rejected ↔
      stepRej rule (j.retained x) ∨ x ∈ j.rejected) := by
  induction xs with
  | nil => cases hmem
  | cons y rest ih =>
    intro j
    rw [List.foldl_cons]
    rw [List.nodup_cons] at hnd
    rcases List.mem_cons.mp hmem with rfl | hx
    · obtain ⟨e1, e2⟩ := foldl_judgeStep_not_mem rule rest (judgeStep rule j x) x hnd.1
      exact ⟨e1.trans (judgeStep_retained_self rule j x),
        e2.trans (judgeStep_rejected_self rule j x)⟩
    · have hxy : x ≠ y := by
        rintro rfl
        exact hnd.1 hx
      obtain ⟨e1, e2⟩ := ih hx hnd.2 (judgeStep rule j y)
      rw [judgeStep_retained_other rule j y x hxy] at e1
      refine ⟨e1, e2.trans ?_⟩
      rw [judgeStep_retained_other rule j y x hxy,
        judgeStep_rejected_other rule j y x hxy]

lemma mem_rejectsIter {rule : RetentionRule} {l : List SnapshotMetadata}
    {x : SnapshotMetadata} :
    x ∈ rejectsIter rule l ↔ x ∈ l ∧ x ∈ rule.rejects l := by
  rw [rejectsIter, List.mem_filter, List.mem_dedup, decide_eq_true_eq]

lemma nodup_rejectsIter (rule : RetentionRule) (l : List SnapshotMetadata) :
    (rejectsIter rule l).Nodup :=
  (List.nodup_dedup l).filter _

lemma rejects_subset_input {rule : RetentionRule} {l : List SnapshotMetadata}
    {x : SnapshotMetadata} (h : x ∈ rule.rejects l) : x ∈ l := by
  rw [RetentionRule.rejects, Finset.mem_sdiff] at h
  exact List.mem_toFinset.mp h.1

lemma survivors_nil (rules : List RetentionRule) (l : List SnapshotMetadata)
    (s : SnapshotMetadata) : survivors rules [] l s = rules.toFinset := by
  rw [survivors]
  exact Finset.filter_true_of_mem fun r _ => by simp

lemma survivors_append_of_not_rejected {rule : RetentionRule} {rules done : List RetentionRule}
    {l : List SnapshotMetadata} {s : SnapshotMetadata} (h : s ∉ rule.rejects l) :
    survivors rules (done ++ [rule]) l s = survivors rules done l s := by
  rw [survivors, survivors]
  apply Finset.filter_congr
  intro r _
  simp only [List.mem_append, List.mem_singleton, eq_iff_iff]
  constructor
  · intro hc ⟨hd, hr⟩
    exact hc ⟨Or.inl hd, hr⟩
  · rintro hc ⟨hd | rfl, hr⟩
    · exact hc ⟨hd, hr⟩
    · exact h hr

lemma survivors_append_of_rejected {rule : RetentionRule} {rules done : List RetentionRule}
    {l : List SnapshotMetadata} {s : SnapshotMetadata} (h : s ∈ rule.rejects l) :
    survivors rules (done ++ [rule]) l s = (survivors rules done l s).erase rule := by
  ext r
  rw [Finset.mem_erase, survivors, survivors, Finset.mem_filter, Finset.mem_filter]
  constructor
  · intro ⟨hmem, hc⟩
    have hne : r ≠ rule := by
      rintro rfl
      exact hc ⟨List.mem_append.mpr (Or.inr (List.mem_singleton.mpr rfl)), h⟩
    exact ⟨hne, hmem, fun ⟨hd, hr⟩ => hc ⟨List.mem_append.mpr (Or.inl hd), hr⟩⟩
  · intro ⟨hne, hmem, hc⟩
    refine ⟨hmem, ?_⟩
    rintro ⟨hd, hr⟩
    rcases List.mem_append.mp hd with hd | hd
    · exact hc ⟨hd, hr⟩
    · exact hne (List.mem_singleton.mp hd)

lemma survivors_subset_of_append (rule : RetentionRule) (rules done : List RetentionRule)
    (l : List SnapshotMetadata) (s : SnapshotMetadata) :
    survivors rules (done ++ [rule]) l s ⊆ survivors rules done l s := by
  intro r hr
  rw [survivors, Finset.mem_filter] at hr ⊢
  exact ⟨hr.1, fun ⟨hd, hj⟩ => hr.2 ⟨List.mem_append.mpr (Or.inl hd), hj⟩⟩

lemma judgeInv_init (rules : List RetentionRule) (l : List SnapshotMetadata) :
    JudgeInv rules [] l (judgeInit rules l) := by
  intro s
  constructor
  · intro hs
    exact ⟨by rw [judgeInit]; exact if_neg hs, by simp [judgeInit]⟩
  · intro hs
    constructor
    · rintro ⟨hemp, hne⟩
      rw [survivors_nil] at hemp
      exact absurd ((List.toFinset_eq_empty_iff rules).mp hemp) hne
    · intro _
      refine ⟨?_, by simp [judgeInit]⟩
      rw [judgeInit, survivors_nil]
      exact if_pos hs

lemma judgeInv_processRule {rules done : List RetentionRule} {l : List SnapshotMetadata}
    {j : Judgement} {rule : RetentionRule} (hrule : rule ∈ rules)
    (hinv : JudgeInv rules done l j) :
    JudgeInv rules (done ++ [rule]) l (processRule l j rule) := by
  intro s
  simp only [processRule]
  have hne : rules ≠ [] := by
    rintro rfl
    cases hrule
  constructor
  · intro hs
    have hnotiter : s ∉ rejectsIter rule l := fun hmem => hs (mem_rejectsIter.mp hmem).1
    obtain ⟨e1, e2⟩ := foldl_judgeStep_not_mem rule _ j s hnotiter
    obtain ⟨h1, h2⟩ := (hinv s).1 hs
    exact ⟨e1.trans h1, fun hc => h2 (e2.mp hc)⟩
  · intro hs
    by_cases hrej : s ∈ rule.rejects l
    · -- s is processed by this rule's inner loop
      have hiter : s ∈ rejectsIter rule l := mem_rejectsIter.mpr ⟨hs, hrej⟩
      obtain ⟨e1, e2⟩ :=
        foldl_judgeStep_mem rule _ s hiter (nodup_rejectsIter rule l) j
      rw [survivors_append_of_rejected hrej]
      by_cases hold : survivors rules done l s = ∅ ∧ rules ≠ []
      · obtain ⟨h1, h2⟩ := ((hinv s).2 hs).1 hold
        rw [h1] at e1 e2
        constructor
        · intro _
          exact ⟨e1, e2.mpr (Or.inr h2)⟩
        · intro hc
          exact absurd (Finset.subset_empty.mp
            (hold.1 ▸ Finset.erase_subset rule (survivors rules done l s)))
            (fun hh => hc ⟨hh, hne⟩)
      · obtain ⟨h1, h2⟩ := ((hinv s).2 hs).2 hold
        rw [h1] at e1 e2
        by_cases hemp : (survivors rules done l s).erase rule = ∅
        · constructor
          · intro _
            refine ⟨?_, ?_⟩
            · rw [e1, stepRet]
              exact if_pos hemp
            · rw [e2, stepRej]
              exact Or.inl hemp
          · intro hc
            exact absurd ⟨hemp, hne⟩ hc
        · constructor
          · rintro ⟨hc, -⟩
            exact absurd hc hemp
          · intro _
            refine ⟨?_, ?_⟩
            · rw [e1, stepRet]
              exact if_neg hemp
            · rw [e2]
              rintro (hc | hc)
              · rw [stepRej] at hc
                exact hemp hc
              · exact h2 hc
    · -- this rule does not reject s: nothing changes for s
      have hnotiter : s ∉ rejectsIter rule l := fun hmem => hrej (mem_rejectsIter.mp hmem).2
      obtain ⟨e1, e2⟩ := foldl_judgeStep_not_mem rule _ j s hnotiter
      rw [survivors_append_of_not_rejected hrej]
      constructor
      · intro hc
        obtain ⟨h1, h2⟩ := ((hinv s).2 hs).1 hc
        exact ⟨e1.trans h1, e2.mpr h2⟩
      · intro hc
        obtain ⟨h1, h2⟩ := ((hinv s).2 hs).2 hc
        exact ⟨e1.trans h1, fun hx => h2 (e2.mp hx)⟩

lemma judgeInv_foldl {rules : List RetentionRule} {l : List SnapshotMetadata} :
    ∀ (rest done : List RetentionRule) (j : Judgement), (∀ r ∈ rest, r ∈ rules) →
      JudgeInv rules done l j →
      JudgeInv rules (done ++ rest) l (rest.foldl (processRule l) j) := by
  intro rest
  induction rest with
  | nil =>
    intro done j _ hinv
    simpa using hinv
  | cons r rest' ih =>
    intro done j hsub hinv
    rw [List.foldl_cons]
    have step := judgeInv_processRule (hsub r (List.mem_cons_self r rest')) hinv
    have := ih (done ++ [r]) (processRule l j r)
      (fun x hx => hsub x (List.mem_cons_of_mem r hx)) step
    simpa [List.append_assoc] using this

lemma judgeCore_inv (rules : List RetentionRule) (l : List SnapshotMetadata) :
    JudgeInv rules rules l (judgeCore rules l) := by
  have h := judgeInv_foldl rules [] (judgeInit rules l) (fun _ hr => hr)
    (judgeInv_init rules l)
  simpa [judgeCore] using h

lemma survivors_full (rules : List RetentionRule) (l : List SnapshotMetadata)
    (s : SnapshotMetadata) :
    survivors rules rules l s = rules.toFinset.filter fun r => s ∉ r.rejects l := by
  rw [survivors]
  apply Finset.filter_congr
  intro r hr
  rw [List.mem_toFinset] at hr
  simp [hr]

lemma judgeCore_rejected_iff (rules : List RetentionRule) (l : List SnapshotMetadata)
    (s : SnapshotMetadata) :
    s ∈ (judgeCore rules l).rejected ↔
      s ∈ l ∧ rules ≠ [] ∧ ∀ r ∈ rules, s ∈ r.rejects l := by
  have hinv := judgeCore_inv rules l s
  have hchar : (survivors rules rules l s = ∅) ↔ ∀ r ∈ rules, s ∈ r.rejects l := by
    rw [survivors_full, Finset.filter_eq_empty_iff]
    constructor
    · intro h r hr
      by_contra hno
      exact h (List.mem_toFinset.mpr hr) hno
    · intro h r hr hno
      exact hno (h r (List.mem_toFinset.mp hr))
  by_cases hs : s ∈ l
  · by_cases hc : survivors rules rules l s = ∅ ∧ rules ≠ []
    · obtain ⟨-, h2⟩ := (hinv.2 hs).1 hc
      simp only [h2, true_iff]
      exact ⟨hs, hc.2, hchar.mp hc.1⟩
    · obtain ⟨-, h2⟩ := (hinv.2 hs).2 hc
      simp only [h2, false_iff]
      rintro ⟨-, hne, hall⟩
      exact hc ⟨hchar.mpr hall, hne⟩
  · obtain ⟨-, h2⟩ := hinv.1 hs
    simp only [h2, false_iff]
    rintro ⟨hc, -⟩
    exact hs hc

lemma judgeCore_retained_eq (rules : List RetentionRule) (l : List SnapshotMetadata)
    (s : SnapshotMetadata) :
    (judgeCore rules l).retained s =
      if s ∈ l ∧ ¬(rules ≠ [] ∧ ∀ r ∈ rules, s ∈ r.rejects l) then
        some (rules.toFinset.filter fun r => s ∉ r.rejects l)
      else none := by
  have hinv := judgeCore_inv rules l s
  have hchar : (survivors rules rules l s = ∅) ↔ ∀ r ∈ rules, s ∈ r.rejects l := by
    rw [survivors_full, Finset.filter_eq_empty_iff]
    constructor
    · intro h r hr
      by_contra hno
      exact h (List.mem_toFinset.mpr hr) hno
    · intro h r hr hno
      exact hno (h r (List.mem_toFinset.mp hr))
  by_cases hs : s ∈ l
  · by_cases hc : survivors rules rules l s = ∅ ∧ rules ≠ []
    · obtain ⟨h1, -⟩ := (hinv.2 hs).1 hc
      rw [h1, if_neg]
      rintro ⟨-, habs⟩
      exact habs ⟨hc.2, hchar.mp hc.1⟩
    · obtain ⟨h1, -⟩ := (hinv.2 hs).2 hc
      rw [h1, if_pos, survivors_full]
      exact ⟨hs, fun ⟨hne, hall⟩ => hc ⟨hchar.mpr hall, hne⟩⟩
  · obtain ⟨h1, -⟩ := hinv.1 hs
    rw [h1, if_neg]
    rintro ⟨hc, -⟩
    exact hs hc

/-- C1: for every policy and snapshot list, `judge` partitions the input:
the key set of `retained` together with `rejected` is exactly the input set,
and the two are disjoint. -/
theorem judge_is_partition (p : RetentionPolicy) (l : List SnapshotMetadata) :
    (p.judge l).retainedKeys l ∪ (p.judge l).rejected = l.toFinset ∧
    Disjoint ((p.judge l).retainedKeys l) (p.judge l).rejected := by
  have hrej : ∀ s, s ∈ (p.judge l).rejected ↔
      s ∈ l ∧ sortRulesDesc p.rules ≠ [] ∧
        ∀ r ∈ sortRulesDesc p.rules, s ∈ r.rejects (sortSnapshots l) := by
    intro s
    rw [RetentionPolicy.judge, judgeCore_rejected_iff, mem_sortSnapshots]
  have hret : ∀ s, ((p.judge l).retained s).isSome = true ↔
      (s ∈ l ∧ ¬(sortRulesDesc p.rules ≠ [] ∧
        ∀ r ∈ sortRulesDesc p.rules, s ∈ r.rejects (sortSnapshots l))) := by
    intro s
    rw [RetentionPolicy.judge, judgeCore_retained_eq]
    by_cases hc : s ∈ sortSnapshots l ∧ ¬(sortRulesDesc p.rules ≠ [] ∧
        ∀ r ∈ sortRulesDesc p.rules, s ∈ r.rejects (sortSnapshots l))
    · rw [if_pos hc]
      simp only [Option.isSome_some, true_iff]
      exact ⟨mem_sortSnapshots.mp hc.1, hc.2⟩
    · rw [if_neg hc]
      simp only [Option.isSome_none, Bool.false_eq_true, false_iff]
      intro habs
      exact hc ⟨mem_sortSnapshots.mpr habs.1, habs.2⟩
  constructor
  · ext s
    rw [Finset.mem_union, Judgement.retainedKeys, Finset.mem_filter, List.mem_toFinset,
      hrej s, hret s]
    constructor
    · rintro (⟨hs, -⟩ | ⟨hs, -⟩) <;> exact hs
    · intro hs
      by_cases hc : sortRulesDesc p.rules ≠ [] ∧
          ∀ r ∈ sortRulesDesc p.rules, s ∈ r.rejects (sortSnapshots l)
      · exact Or.inr ⟨hs, hc.1, hc.2⟩
      · exact Or.inl ⟨hs, hs, hc⟩
  · rw [Finset.disjoint_left]
    intro s hk hr
    rw [Judgement.retainedKeys, Finset.mem_filter] at hk
    obtain ⟨-, hno⟩ := (hret s).mp hk.2
    obtain ⟨-, hc⟩ := (hrej s).mp hr
    exact hno hc

/-- C3: a snapshot is rejected by `judge` iff every individual rule of the
(non-empty) policy rejects it, and the resulting partition does not depend
on the order in which the rules are evaluated: any reordering of the rule
list yields the same `rejected` set and the same `retained` map. -/
theorem judge_rejected_iff_every_rule_rejects (p : RetentionPolicy)
    (l : List SnapshotMetadata) (hne : p.rules ≠ []) :
    (∀ s, s ∈ (p.judge l).rejected ↔
      s ∈ l ∧ ∀ r ∈ p.rules, s ∈ r.rejects (sortSnapshots l)) ∧
    ∀ rules2 : List RetentionRule, rules2.Perm p.rules →
      (judgeCore rules2 (sortSnapshots l)).rejected = (p.judge l).rejected ∧
      ∀ s, (judgeCore rules2 (sortSnapshots l)).retained s = (p.judge l).retained s := by
  have hsne : sortRulesDesc p.rules ≠ [] := by
    intro h
    apply hne
    have hl := (sortRulesDesc_perm p.rules).length_eq
    rw [h] at hl
    exact List.length_eq_zero.mp hl.symm
  constructor
  · intro s
    rw [RetentionPolicy.judge, judgeCore_rejected_iff, mem_sortSnapshots]
    constructor
    · rintro ⟨hs, -, hall⟩
      exact ⟨hs, fun r hr => hall r (mem_sortRulesDesc.mpr hr)⟩
    · rintro ⟨hs, hall⟩
      exact ⟨hs, hsne, fun r hr => hall r (mem_sortRulesDesc.mp hr)⟩
  · intro rules2 hperm
    have h2ne : rules2 ≠ [] := by
      intro h
      apply hne
      have hl := hperm.length_eq
      rw [h] at hl
      exact List.length_eq_zero.mp hl.symm
    have hmemr : ∀ r : RetentionRule, r ∈ rules2 ↔ r ∈ sortRulesDesc p.rules := by
      intro r
      rw [hperm.mem_iff, mem_sortRulesDesc]
    have hset : rules2.toFinset = (sortRulesDesc p.rules).toFinset :=
      (toFinset_eq_of_perm hperm).trans
        (toFinset_eq_of_perm (sortRulesDesc_perm p.rules)).symm
    constructor
    · ext s
      rw [RetentionPolicy.judge, judgeCore_rejected_iff, judgeCore_rejected_iff]
      constructor
      · rintro ⟨hs, -, hall⟩
        exact ⟨hs, hsne, fun r hr => hall r ((hmemr r).mpr hr)⟩
      · rintro ⟨hs, -, hall⟩
        exact ⟨hs, h2ne, fun r hr => hall r ((hmemr r).mp hr)⟩
    · intro s
      rw [RetentionPolicy.judge, judgeCore_retained_eq, judgeCore_retained_eq, hset]
      refine if_congr (and_congr_right fun _ => not_congr (and_congr ?_ ?_)) rfl rfl
      · exact ⟨fun _ => hsne, fun _ => h2ne⟩
      · constructor
        · intro hall r hr
          exact hall r ((hmemr r).mpr hr)
        · intro hall r hr
          exact hall r ((hmemr r).mp hr)

theorem judge_rejected_iff_every_rule_rejects_witness :
    ((⟨"v@b".toList, 820, 0⟩ : SnapshotMetadata) ∈
        (RetentionPolicy.judge ⟨[⟨50, 2⟩, ⟨600, 2⟩]⟩
          [⟨"v@a".toList, 700, 0⟩, ⟨"v@b".toList, 820, 0⟩]).rejected ↔
      (⟨"v@b".toList, 820, 0⟩ : SnapshotMetadata) ∈
          [(⟨"v@a".toList, 700, 0⟩ : SnapshotMetadata), ⟨"v@b".toList, 820, 0⟩] ∧
        ∀ r ∈ [(⟨50, 2⟩ : RetentionRule), ⟨600, 2⟩],
          (⟨"v@b".toList, 820, 0⟩ : SnapshotMetadata) ∈ r.rejects
            (sortSnapshots [⟨"v@a".toList, 700, 0⟩, ⟨"v@b".toList, 820, 0⟩])) ∧
    (judgeCore [(⟨600, 2⟩ : RetentionRule), ⟨50, 2⟩]
        (sortSnapshots [⟨"v@a".toList, 700, 0⟩, ⟨"v@b".toList, 820, 0⟩])).rejected =
      (RetentionPolicy.judge ⟨[⟨50, 2⟩, ⟨600, 2⟩]⟩
        [⟨"v@a".toList, 700, 0⟩, ⟨"v@b".toList, 820, 0⟩]).rejected :=
  ⟨(judge_rejected_iff_every_rule_rejects ⟨[⟨50, 2⟩, ⟨600, 2⟩]⟩
      [⟨"v@a".toList, 700, 0⟩, ⟨"v@b".toList, 820, 0⟩] (by decide)).1 _,
   ((judge_rejected_iff_every_rule_rejects ⟨[⟨50, 2⟩, ⟨600, 2⟩]⟩
      [⟨"v@a".toList, 700, 0⟩, ⟨"v@b".toList, 820, 0⟩] (by decide)).2
      [⟨600, 2⟩, ⟨50, 2⟩] (by decide)).1⟩

lemma sweepCount_eq_length {period : Nat} {l : List SnapshotMetadata} :
    ∀ wm : Int, (∀ hd, l.head? = some hd → wm ≤ hd.created) →
      l.Chain' (fun a b => a.created + (period : Int) ≤ b.created) →
      sweepCount period l wm = l.length := by
  induction l with
  | nil => intro wm _ _; rfl
  | cons s rest ih =>
    intro wm hwm hchain
    have hs : wm ≤ s.created := hwm s rfl
    rw [sweepCount, if_pos hs, List.length_cons]
    rw [List.chain'_cons'] at hchain
    congr 1
    refine ih (s.created + period) (fun hd hhd => ?_) hchain.2
    exact hchain.1 hd (by rw [hhd]; rfl)

lemma phase2Retained_eq_self {period : Nat} {l : List SnapshotMetadata} :
    ∀ wm : Int, (∀ hd, l.head? = some hd → wm ≤ hd.created) →
      l.Chain' (fun a b => a.created + (period : Int) ≤ b.created) →
      phase2Retained period l wm = l := by
  induction l with
  | nil => intro wm _ _; rfl
  | cons s rest ih =>
    intro wm hwm hchain
    have hs : wm ≤ s.created := hwm s rfl
    rw [phase2Retained, if_pos hs]
    rw [List.chain'_cons'] at hchain
    congr 1
    refine ih (s.created + period) (fun hd hhd => ?_) hchain.2
    exact hchain.1 hd (by rw [hhd]; rfl)

/-- C6 (amended): a rule whose `retained_copies` covers the whole input
rejects nothing on an oldest-first list with consecutive gaps of at least
the period — arbitrarily large gaps included — provided every creation time
is at or after the Unix epoch (a pre-epoch snapshot falls before the
epoch-initialised watermark and is rejected, see the counterexample). -/
theorem generous_rule_rejects_nothing (rule : RetentionRule) (l : List SnapshotMetadata)
    (hk : l.length ≤ rule.retained_copies)
    (hgap : l.Chain' fun a b => a.created + (rule.snapshot_period : Int) ≤ b.created)
    (hepoch : ∀ s ∈ l, 0 ≤ s.created) :
    rule.rejects l = ∅ := by
  have hhead : ∀ hd, l.head? = some hd → (0 : Int) ≤ hd.created := by
    intro hd hhd
    cases l with
    | nil => cases hhd
    | cons s rest =>
      rw [List.head?_cons, Option.some.injEq] at hhd
      exact hhd ▸ hepoch s (List.mem_cons_self s rest)
  have hcount : sweepCount rule.snapshot_period l 0 = l.length :=
    sweepCount_eq_length 0 hhead hgap
  have hcut : cutPoint rule l = 0 := by
    cases l with
    | nil => rfl
    | cons s rest =>
      have hfind : (List.range (s :: rest).length).find? (fun n =>
          decide (sweepCount rule.snapshot_period ((s :: rest).drop n) 0 ≤
            rule.retained_copies)) = some 0 := by
        rw [List.length_cons, List.range_succ_eq_map]
        refine List.find?_cons_of_pos _ ?_
        rw [List.drop_zero, decide_eq_true_eq, hcount]
        exact hk
      rw [cutPoint, hfind]
      rfl
  rw [RetentionRule.rejects, not_too_old, hcut, List.drop_zero,
    phase2Retained_eq_self 0 hhead hgap, Finset.sdiff_self]

/-- C6 counterexample: the claim as stated fails for a pre-epoch snapshot.
The singleton list trivially satisfies the consecutive-spacing condition and
`retained_copies` exceeds the length, yet the rule rejects the snapshot,
because its creation time lies before the epoch-initialised watermark. -/
theorem generous_rule_counterexample :
    (([⟨"a@x".toList, -1, 0⟩] : List SnapshotMetadata).Chain'
      fun a b => a.created + ((60 : Nat) : Int) ≤ b.created) ∧
    ([(⟨"a@x".toList, -1, 0⟩ : SnapshotMetadata)] : List SnapshotMetadata).length ≤ 5 ∧
    RetentionRule.rejects ⟨60, 5⟩ [⟨"a@x".toList, -1, 0⟩] ≠ ∅ := by
  refine ⟨List.chain'_singleton _, by decide, by decide⟩

theorem generous_rule_rejects_nothing_witness :
    RetentionRule.rejects ⟨60, 5⟩
      [(⟨"a@x".toList, 10, 0⟩ : SnapshotMetadata), ⟨"a@y".toList, 1000, 0⟩,
        ⟨"a@z".toList, 1060, 0⟩] = ∅ :=
  generous_rule_rejects_nothing ⟨60, 5⟩ _ (by decide)
    (by
      rw [List.chain'_cons, List.chain'_cons]
      exact ⟨by decide, by decide, List.chain'_singleton _⟩)
    (by decide)

lemma phase2Retained_subset {period : Nat} {l : List SnapshotMetadata} :
    ∀ {wm : Int} {s : SnapshotMetadata}, s ∈ phase2Retained period l wm → s ∈ l := by
  induction l with
  | nil => intro wm s h; cases h
  | cons t rest ih =>
    intro wm s h
    rw [phase2Retained] at h
    split at h
    · rcases List.mem_cons.mp h with rfl | h
      · exact List.mem_cons_self s rest
      · exact List.mem_cons_of_mem t (ih h)
    · exact List.mem_cons_of_mem t (ih h)

lemma find?_range'_first {p : Nat → Bool} :
    ∀ (n a b : Nat), (List.range' a n).find? p = some b →
      p b = true ∧ ∀ m, a ≤ m → m < b → p m = false := by
  intro n
  induction n with
  | zero => intro a b h; cases h
  | succ k ih =>
    intro a b h
    rw [List.range'_succ] at h
    by_cases hpa : p a = true
    · rw [List.find?_cons_of_pos _ hpa, Option.some.injEq] at h
      subst h
      exact ⟨hpa, fun m ham hmb => absurd (lt_of_le_of_lt ham hmb) (lt_irrefl a)⟩
    · rw [List.find?_cons_of_neg _ hpa] at h
      obtain ⟨h1, h2⟩ := ih (a + 1) b h
      refine ⟨h1, fun m ham hmb => ?_⟩
      by_cases hma : m = a
      · subst hma
        exact Bool.not_eq_true _ ▸ eq_false_of_ne_true hpa
      · exact h2 m (by omega) hmb

lemma cutPoint_of_lt {rule : RetentionRule} {l : List SnapshotMetadata} {i : Nat}
    (h : i < cutPoint rule l) :
    sweepCount rule.snapshot_period (l.drop (cutPoint rule l)) 0 ≤ rule.retained_copies ∧
    ¬ sweepCount rule.snapshot_period (l.drop i) 0 ≤ rule.retained_copies := by
  cases hf : (List.range l.length).find? (fun n =>
      decide (sweepCount rule.snapshot_period (l.drop n) 0 ≤ rule.retained_copies)) with
  | none =>
    rw [cutPoint, hf] at h
    cases h
  | some n =>
    have hcut : cutPoint rule l = n := by rw [cutPoint, hf]; rfl
    have hf' := hf
    rw [List.range_eq_range'] at hf'
    obtain ⟨h1, h2⟩ := find?_range'_first l.length 0 n hf'
    rw [decide_eq_true_eq] at h1
    have h3 := h2 i (Nat.zero_le i) (hcut ▸ h)
    rw [decide_eq_false_iff_not] at h3
    exact ⟨hcut ▸ h1, h3⟩

lemma sweepCount_drop_succ_eq {period : Nat} {l : List SnapshotMetadata} {m : Nat}
    (hp : 0 < period) (hm0 : m < l.length) (hm : m + 1 < l.length)
    (heq : l[m].created = l[m + 1].created) :
    sweepCount period (l.drop m) 0 = sweepCount period (l.drop (m + 1)) 0 := by
  have e1 : l.drop m = l[m] :: l.drop (m + 1) := List.drop_eq_getElem_cons hm0
  have e2 : l.drop (m + 1) = l[m + 1] :: l.drop (m + 2) := List.drop_eq_getElem_cons hm
  rw [e1, e2]
  simp only [sweepCount]
  rw [← heq]
  by_cases hc : (0 : Int) ≤ l[m].created
  · have hnp : ¬(l[m].created + (period : Int) ≤ l[m].created) := by
      have hp2 : (0 : Int) < (period : Int) := by exact_mod_cast hp
      omega
    simp [hc, hnp]
  · simp [hc]

lemma sweepCount_drop_run {period : Nat} {l : List SnapshotMetadata} {i j : Nat}
    (hp : 0 < period)
    (hsorted : l.Pairwise fun a b => a.created ≤ b.created)
    (hij : i ≤ j) (hi : i < l.length) (hj : j < l.length)
    (hends : l[i].created = l[j].created) :
    ∀ k, i ≤ k → k ≤ j →
      sweepCount period (l.drop i) 0 = sweepCount period (l.drop k) 0 := by
  have hmono := List.pairwise_iff_getElem.mp hsorted
  have hconst : ∀ m (hml : m < l.length) (him : i ≤ m) (hmj : m ≤ j),
      l[m].created = l[i].created := by
    intro m hml him hmj
    have h1 : l[i].created ≤ l[m].created := by
      rcases Nat.lt_or_ge i m with hlt | hge
      · exact hmono i m hi hml hlt
      · have heqim : i = m := by omega
        subst heqim
        exact le_refl _
    have h2 : l[m].created ≤ l[j].created := by
      rcases Nat.lt_or_ge m j with hlt | hge
      · exact hmono m j hml hj hlt
      · have heqmj : m = j := by omega
        subst heqmj
        exact le_refl _
    omega
  intro k hik hkj
  induction k, hik using Nat.le_induction with
  | base => rfl
  | succ k hik ih =>
    have hkj2 : k ≤ j := by omega
    have hkl0 : k < l.length := by omega
    have hkl : k + 1 < l.length := by omega
    have heqk : l[k].created = l[k + 1].created := by
      have ha := hconst k hkl0 (by omega) hkj2
      have hb := hconst (k + 1) hkl (by omega) hkj
      omega
    exact (ih hkj2).trans (sweepCount_drop_succ_eq hp hkl0 hkl heqk)

lemma take_disjoint_phase2 {rule : RetentionRule} {l : List SnapshotMetadata}
    (hp : 0 < rule.snapshot_period)
    (hsorted : l.Pairwise fun a b => a.created ≤ b.created) :
    ∀ s ∈ l.take (cutPoint rule l),
      s ∉ phase2Retained rule.snapshot_period (l.drop (cutPoint rule l)) 0 := by
  intro s hs hmem
  obtain ⟨i, hi, hieq⟩ := List.mem_iff_getElem.mp hs
  have hicut : i < cutPoint rule l := by
    have := List.length_take (cutPoint rule l) l
    omega
  have hilen : i < l.length := by
    have := List.length_take (cutPoint rule l) l
    omega
  have hival : l[i] = s := by
    rw [← List.getElem_take l]
    exact hieq
  have hmem2 : s ∈ l.drop (cutPoint rule l) := phase2Retained_subset hmem
  obtain ⟨t, ht, hteq⟩ := List.mem_iff_getElem.mp hmem2
  have hjlen : cutPoint rule l + t < l.length := by
    have := List.length_drop (cutPoint rule l) l
    omega
  have hjval : l[cutPoint rule l + t] = s := by
    rw [← List.getElem_drop l]
    exact hteq
  have hij : i ≤ cutPoint rule l + t := by omega
  have hends : l[i].created = l[cutPoint rule l + t].created := by
    rw [hival, hjval]
  have hrun := sweepCount_drop_run hp hsorted hij hilen hjlen hends (cutPoint rule l)
    (by omega) (by omega)
  obtain ⟨hle, hnle⟩ := cutPoint_of_lt hicut
  rw [hrun] at hnle
  exact hnle hle

/-- C2: on an oldest-first list, a rule's rejection set is exactly the union
of Phase 1 — every snapshot strictly before the cut point, the first index
whose epoch-initialised watermark sweep counts at most `retained_copies`
snapshots — and Phase 2 — the post-cut snapshots the fresh epoch-initialised
watermark sweep does not retain.  The period is positive, as the data model
requires of a valid rule. -/
theorem rejects_eq_phase1_union_phase2 (rule : RetentionRule) (l : List SnapshotMetadata)
    (hsorted : l.Pairwise fun a b => a.created ≤ b.created)
    (hp : 0 < rule.snapshot_period) :
    rule.rejects l =
      (l.take (cutPoint rule l)).toFinset ∪
      ((not_too_old l rule).toFinset \
        (phase2Retained rule.snapshot_period (not_too_old l rule) 0).toFinset) := by
  ext s
  rw [RetentionRule.rejects, not_too_old, Finset.mem_sdiff, Finset.mem_union,
    Finset.mem_sdiff, List.mem_toFinset, List.mem_toFinset, List.mem_toFinset,
    List.mem_toFinset]
  constructor
  · rintro ⟨hmem, hnr⟩
    have hmem' : s ∈ l.take (cutPoint rule l) ++ l.drop (cutPoint rule l) := by
      rw [List.take_append_drop]
      exact hmem
    rcases List.mem_append.mp hmem' with h | h
    · exact Or.inl h
    · exact Or.inr ⟨h, hnr⟩
  · rintro (h | ⟨h, hnr⟩)
    · have hmem : s ∈ l := by
        rw [← List.take_append_drop (cutPoint rule l) l]
        exact List.mem_append.mpr (Or.inl h)
      exact ⟨hmem, take_disjoint_phase2 hp hsorted s h⟩
    · have hmem : s ∈ l := by
        rw [← List.take_append_drop (cutPoint rule l) l]
        exact List.mem_append.mpr (Or.inr h)
      exact ⟨hmem, hnr⟩

theorem rejects_eq_phase1_union_phase2_witness :
    RetentionRule.rejects ⟨50, 2⟩
        [(⟨"40s".toList, 99960, 0⟩ : SnapshotMetadata), ⟨"18m".toList, 98920, 0⟩].reverse =
      (([(⟨"18m".toList, 98920, 0⟩ : SnapshotMetadata), ⟨"40s".toList, 99960, 0⟩]).take
          (cutPoint ⟨50, 2⟩
            [(⟨"18m".toList, 98920, 0⟩ : SnapshotMetadata), ⟨"40s".toList, 99960, 0⟩])).toFinset ∪
      ((not_too_old [(⟨"18m".toList, 98920, 0⟩ : SnapshotMetadata), ⟨"40s".toList, 99960, 0⟩]
          ⟨50, 2⟩).toFinset \
        (phase2Retained 50
          (not_too_old [(⟨"18m".toList, 98920, 0⟩ : SnapshotMetadata), ⟨"40s".toList, 99960, 0⟩]
            ⟨50, 2⟩) 0).toFinset) :=
  rejects_eq_phase1_union_phase2 ⟨50, 2⟩
    [⟨"18m".toList, 98920, 0⟩, ⟨"40s".toList, 99960, 0⟩] (by decide) (by decide)

lemma cutPoint_lt_length {rule : RetentionRule} {l : List SnapshotMetadata}
    (hne : l ≠ []) : cutPoint rule l < l.length := by
  have hlen : 0 < l.length := List.length_pos.mpr hne
  cases hf : (List.range l.length).find? (fun n =>
      decide (sweepCount rule.snapshot_period (l.drop n) 0 ≤ rule.retained_copies)) with
  | none =>
    rw [cutPoint, hf]
    exact hlen
  | some n =>
    rw [cutPoint, hf]
    exact List.mem_range.mp (List.mem_of_find?_eq_some hf)

lemma not_too_old_eq_nil_iff {rule : RetentionRule} {l : List SnapshotMetadata} :
    not_too_old l rule = [] ↔ l = [] := by
  constructor
  · intro h
    by_contra hne
    have hcut := @cutPoint_lt_length rule l hne
    rw [not_too_old, List.drop_eq_nil_iff] at h
    omega
  · rintro rfl
    rfl

lemma getLast?_drop_of_lt {l : List SnapshotMetadata} {k : Nat} (hk : k < l.length) :
    (l.drop k).getLast? = l.getLast? := by
  have hne : l.drop k ≠ [] := by
    intro hdrop
    rw [List.drop_eq_nil_iff] at hdrop
    omega
  conv_rhs => rw [← List.take_append_drop k l]
  rw [List.getLast?_append]
  cases hg : (l.drop k).getLast? with
  | none => exact absurd (List.getLast?_eq_none_iff.mp hg) hne
  | some x => rfl

lemma sorted_le_getLast {l : List SnapshotMetadata}
    (hsorted : l.Pairwise fun a b => a.created ≤ b.created) {s : SnapshotMetadata}
    (hs : l.getLast? = some s) : ∀ x ∈ l, x.created ≤ s.created := by
  obtain ⟨ys, rfl⟩ := List.getLast?_eq_some_iff.mp hs
  rw [List.pairwise_append] at hsorted
  intro x hx
  rcases List.mem_append.mp hx with hx | hx
  · exact hsorted.2.2 x hx s (List.mem_singleton.mpr rfl)
  · rw [List.mem_singleton.mp hx]

/-- C4: a rule's `next_snapshot_in` is `none` exactly when the Phase 1
bounded set (of the oldest-first sorted input) is empty, and otherwise
returns the newest member of that bounded set's creation time plus the
period, minus `now`, floored at zero; the policy's `next_snapshot_in` is the
minimum over its rules' values, ignoring rules that return `none`, and is
`none` only when every rule returns `none`. -/
theorem next_snapshot_in_matches_spec (now : Int) (rule : RetentionRule)
    (p : RetentionPolicy) (l : List SnapshotMetadata) :
    (rule.next_snapshot_in now l = none ↔ not_too_old (sortSnapshots l) rule = []) ∧
    (∀ s, (not_too_old (sortSnapshots l) rule).getLast? = some s →
      s ∈ not_too_old (sortSnapshots l) rule ∧
      (∀ x ∈ not_too_old (sortSnapshots l) rule, x.created ≤ s.created) ∧
      rule.next_snapshot_in now l =
        some ((s.created + rule.snapshot_period - now).toNat)) ∧
    (p.next_snapshot_in now l = none ↔ ∀ r ∈ p.rules, r.next_snapshot_in now l = none) ∧
    (∀ d, p.next_snapshot_in now l = some d →
      (∃ r ∈ p.rules, r.next_snapshot_in now l = some d) ∧
      ∀ r ∈ p.rules, ∀ d2, r.next_snapshot_in now l = some d2 → d ≤ d2) := by
  refine ⟨?_, ?_, ?_, ?_⟩
  · rw [RetentionRule.next_snapshot_in, Option.map_eq_none', List.getLast?_eq_none_iff]
  · intro s hs
    have hsortednto : (not_too_old (sortSnapshots l) rule).Pairwise
        fun a b => a.created ≤ b.created := by
      rw [not_too_old]
      exact (sortSnapshots_sorted l).drop
    refine ⟨?_, sorted_le_getLast hsortednto hs, ?_⟩
    · obtain ⟨ys, hys⟩ := List.getLast?_eq_some_iff.mp hs
      rw [hys]
      exact List.mem_append.mpr (Or.inr (List.mem_singleton.mpr rfl))
    · rw [RetentionRule.next_snapshot_in, hs, Option.map_some']
  · rw [RetentionPolicy.next_snapshot_in, List.min?_eq_none_iff, List.filterMap_eq_nil_iff]
  · intro d hd
    rw [RetentionPolicy.next_snapshot_in] at hd
    obtain ⟨hmem, hmin⟩ := natMin?_eq_some_iff.mp hd
    obtain ⟨r, hr, hval⟩ := List.mem_filterMap.mp hmem
    refine ⟨⟨r, hr, hval⟩, fun r2 hr2 d2 hd2 => ?_⟩
    exact hmin d2 (List.mem_filterMap.mpr ⟨r2, hr2, hd2⟩)

theorem next_snapshot_in_matches_spec_witness :
    (⟨"5m".toList, 99700, 0⟩ : SnapshotMetadata) ∈
        not_too_old (sortSnapshots
          [(⟨"15m".toList, 99100, 0⟩ : SnapshotMetadata), ⟨"5m".toList, 99700, 0⟩])
          ⟨600, 2⟩ ∧
      (∀ x ∈ not_too_old (sortSnapshots
          [(⟨"15m".toList, 99100, 0⟩ : SnapshotMetadata), ⟨"5m".toList, 99700, 0⟩])
          ⟨600, 2⟩,
        x.created ≤ (⟨"5m".toList, 99700, 0⟩ : SnapshotMetadata).created) ∧
      RetentionRule.next_snapshot_in ⟨600, 2⟩ 100000
          [(⟨"15m".toList, 99100, 0⟩ : SnapshotMetadata), ⟨"5m".toList, 99700, 0⟩] =
        some ((((⟨"5m".toList, 99700, 0⟩ : SnapshotMetadata)).created +
          (⟨600, 2⟩ : RetentionRule).snapshot_period - 100000).toNat) :=
  (next_snapshot_in_matches_spec 100000 ⟨600, 2⟩ ⟨[⟨600, 2⟩]⟩
    [⟨"15m".toList, 99100, 0⟩, ⟨"5m".toList, 99700, 0⟩]).2.1
    ⟨"5m".toList, 99700, 0⟩ (by decide)

lemma until_next_snapshot_mem {now : Int} {datasets : List ConfiguredDataSet}
    {pr : Nat × ConfiguredDataSet} (h : pr ∈ until_next_snapshot now datasets) :
    pr.2 ∈ datasets ∧
    (pr.2.sorted_snapshots.filter fun s => decide (s.dataset = pr.2.path)) ≠ [] := by
  rw [until_next_snapshot] at h
  obtain ⟨d', hd', hval⟩ := List.mem_filterMap.mp h
  cases hmax : maxByCreated (d'.sorted_snapshots.filter fun s => decide (s.dataset = d'.path)) with
  | none =>
    rw [hmax] at hval
    cases hval
  | some newest =>
    rw [hmax, Option.map_some', Option.some.injEq] at hval
    subst hval
    refine ⟨hd', fun hnil => ?_⟩
    rw [hnil] at hmax
    cases hmax

/-- C8: a configured dataset none of whose listed snapshots belongs to it
(by name prefix) contributes no entry to `until_next_snapshot` and its path
is never yielded by `need_snapshot`, so a daemon cycle issues no
create-snapshot command for a volume with zero snapshot history. -/
theorem zero_history_dataset_never_snapshotted (now : Int)
    (datasets : List ConfiguredDataSet) (d : ConfiguredDataSet) (hd : d ∈ datasets)
    (hempty : ∀ s ∈ d.sorted_snapshots, s.dataset ≠ d.path)
    (hpaths : ∀ d2 ∈ datasets, d2.path = d.path → d2 = d) :
    (∀ pr ∈ until_next_snapshot now datasets, pr.2 ≠ d) ∧
    d.path ∉ need_snapshot now datasets := by
  have hskip : ∀ pr ∈ until_next_snapshot now datasets, pr.2 ≠ d := by
    intro pr hpr heq
    obtain ⟨-, hne⟩ := until_next_snapshot_mem hpr
    rw [heq] at hne
    apply hne
    rw [List.filter_eq_nil_iff]
    intro s hsmem
    simp only [decide_eq_true_eq]
    exact hempty s hsmem
  refine ⟨hskip, fun hmem => ?_⟩
  rw [need_snapshot] at hmem
  obtain ⟨pr, hpr, hpath⟩ := List.mem_map.mp hmem
  have hprmem : pr ∈ until_next_snapshot now datasets := List.mem_of_mem_filter hpr
  obtain ⟨h2mem, -⟩ := until_next_snapshot_mem hprmem
  exact hskip pr hprmem (hpaths pr.2 h2mem hpath)

theorem zero_history_dataset_never_snapshotted_witness :
    (∀ pr ∈ until_next_snapshot 100
        [(⟨"a".toList, ⟨[⟨600, 1⟩]⟩, [⟨"b@x".toList, 5, 0⟩]⟩ : ConfiguredDataSet)],
      pr.2 ≠ (⟨"a".toList, ⟨[⟨600, 1⟩]⟩, [⟨"b@x".toList, 5, 0⟩]⟩ : ConfiguredDataSet)) ∧
    ("a".toList ∉ need_snapshot 100
      [(⟨"a".toList, ⟨[⟨600, 1⟩]⟩, [⟨"b@x".toList, 5, 0⟩]⟩ : ConfiguredDataSet)]) :=
  zero_history_dataset_never_snapshotted 100
    [⟨"a".toList, ⟨[⟨600, 1⟩]⟩, [⟨"b@x".toList, 5, 0⟩]⟩]
    ⟨"a".toList, ⟨[⟨600, 1⟩]⟩, [⟨"b@x".toList, 5, 0⟩]⟩
    (by decide) (by decide) (by decide)

lemma maxByCreatedFrom_spec (l : List SnapshotMetadata) : ∀ m : SnapshotMetadata,
    (maxByCreatedFrom m l = m ∨ maxByCreatedFrom m l ∈ l) ∧
    m.created ≤ (maxByCreatedFrom m l).created ∧
    ∀ x ∈ l, x.created ≤ (maxByCreatedFrom m l).created := by
  induction l with
  | nil => intro m; exact ⟨Or.inl rfl, le_refl _, by simp⟩
  | cons s rest ih =>
    intro m
    rw [maxByCreatedFrom]
    by_cases hc : m.created ≤ s.created
    · rw [if_pos hc]
      obtain ⟨h1, h2, h3⟩ := ih s
      refine ⟨?_, le_trans hc h2, ?_⟩
      · rcases h1 with h | h
        · exact Or.inr (by rw [h]; exact List.mem_cons_self s rest)
        · exact Or.inr (List.mem_cons_of_mem s h)
      · intro x hx
        rcases List.mem_cons.mp hx with rfl | hx
        · exact h2
        · exact h3 x hx
    · rw [if_neg hc]
      obtain ⟨h1, h2, h3⟩ := ih m
      refine ⟨?_, h2, ?_⟩
      · rcases h1 with h | h
        · exact Or.inl h
        · exact Or.inr (List.mem_cons_of_mem s h)
      · intro x hx
        rcases List.mem_cons.mp hx with rfl | hx
        · omega
        · exact h3 x hx

lemma maxByCreated_spec {l : List SnapshotMetadata} {m : SnapshotMetadata}
    (h : maxByCreated l = some m) : m ∈ l ∧ ∀ x ∈ l, x.created ≤ m.created := by
  cases l with
  | nil => cases h
  | cons s rest =>
    rw [maxByCreated, Option.some.injEq] at h
    subst h
    obtain ⟨h1, h2, h3⟩ := maxByCreatedFrom_spec rest s
    constructor
    · rcases h1 with h | h
      · rw [h]
        exact List.mem_cons_self s rest
      · exact List.mem_cons_of_mem s h
    · intro x hx
      rcases List.mem_cons.mp hx with rfl | hx
      · exact h2
      · exact h3 x hx

lemma maxByCreated_isSome_of_ne_nil {l : List SnapshotMetadata} (h : l ≠ []) :
    ∃ m, maxByCreated l = some m := by
  cases l with
  | nil => exact absurd rfl h
  | cons s rest => exact ⟨maxByCreatedFrom s rest, rfl⟩

lemma toNat_add_sub_eq {c now : Int} (p : Nat) (h : c ≤ now) :
    (c + (p : Nat) - now).toNat = p - (now - c).toNat := by
  omega

lemma rule_next_of_getLast {rule : RetentionRule} {now : Int}
    {l : List SnapshotMetadata} {slast : SnapshotMetadata}
    (hne : sortSnapshots l ≠ [])
    (hlast : (sortSnapshots l).getLast? = some slast) :
    rule.next_snapshot_in now l = some ((slast.created + rule.snapshot_period - now).toNat) := by
  rw [RetentionRule.next_snapshot_in, not_too_old,
    getLast?_drop_of_lt (cutPoint_lt_length hne), hlast, Option.map_some']

lemma filterMap_some_eq_map {α β : Type} (f : α → β) (l : List α) :
    l.filterMap (fun x => some (f x)) = l.map f := by
  induction l with
  | nil => rfl
  | cons x rest ih =>
    rw [List.filterMap_cons, List.map_cons]
    simpa using ih

lemma natMin?_of_ne_nil {xs : List Nat} (h : xs ≠ []) : ∃ a, xs.min? = some a := by
  cases hx : xs.min? with
  | none => exact absurd (List.min?_eq_none_iff.mp hx) h
  | some a => exact ⟨a, rfl⟩

/-- C5 (amended): in a daemon cycle over datasets as the fetch step produces
them — each dataset's snapshots belong to it, policies are non-empty — and
in which no snapshot is created in the future of `now`, the sleep duration
equals the global minimum over all volumes of the §4.2 per-volume
`next_snapshot_in` of `src/policy.rs`, with the 10-minute fallback when no
volume reports a due time.  A future-dated snapshot breaks the equality
(see the counterexample): the daemon clamps `elapsed` at zero while §4.2
adds the full time until that snapshot's creation. -/
theorem daemon_sleep_matches_spec (now : Int) (datasets : List ConfiguredDataSet)
    (hgroup : ∀ d ∈ datasets, ∀ s ∈ d.sorted_snapshots, s.dataset = d.path)
    (hpol : ∀ d ∈ datasets, d.retention_policy.rules ≠ [])
    (hpast : ∀ d ∈ datasets, ∀ s ∈ d.sorted_snapshots, s.created ≤ now) :
    daemon_sleep now datasets = spec_sleep now datasets := by
  suffices h : (datasets.filterMap fun dataset =>
      Option.map Prod.fst ((maxByCreated (dataset.sorted_snapshots.filter fun s =>
        decide (s.dataset = dataset.path))).map fun newest =>
          (dataset.retention_policy.shortest_period - newest.elapsed now, dataset))) =
      datasets.filterMap fun d =>
        d.retention_policy.next_snapshot_in now d.sorted_snapshots by
    rw [daemon_sleep, duration_until_next_snapshot_needed, until_next_snapshot,
      List.map_filterMap, h, spec_sleep]
  apply List.filterMap_congr
  intro d hd
  have hfilter : (d.sorted_snapshots.filter fun s => decide (s.dataset = d.path)) =
      d.sorted_snapshots :=
    List.filter_eq_self.mpr fun s hs => decide_eq_true (hgroup d hd s hs)
  rw [hfilter]
  by_cases hnil : d.sorted_snapshots = []
  · rw [hnil, RetentionPolicy.next_snapshot_in]
    have hall : ∀ r ∈ d.retention_policy.rules,
        r.next_snapshot_in now ([] : List SnapshotMetadata) = none := fun r _ => rfl
    rw [List.filterMap_eq_nil_iff.mpr hall]
    rfl
  · obtain ⟨m, hmax⟩ := maxByCreated_isSome_of_ne_nil hnil
    obtain ⟨hm_mem, hm_max⟩ := maxByCreated_spec hmax
    rw [hmax, Option.map_some', Option.map_some']
    have hsne : sortSnapshots d.sorted_snapshots ≠ [] := by
      intro h
      apply hnil
      have hl := (sortSnapshots_perm d.sorted_snapshots).length_eq
      rw [h] at hl
      exact List.length_eq_zero.mp hl.symm
    obtain ⟨slast, hlast⟩ : ∃ s, (sortSnapshots d.sorted_snapshots).getLast? = some s := by
      cases hg : (sortSnapshots d.sorted_snapshots).getLast? with
      | none => exact absurd (List.getLast?_eq_none_iff.mp hg) hsne
      | some x => exact ⟨x, rfl⟩
    have hlast_mem : slast ∈ d.sorted_snapshots := by
      obtain ⟨ys, hys⟩ := List.getLast?_eq_some_iff.mp hlast
      have hin : slast ∈ sortSnapshots d.sorted_snapshots := by
        rw [hys]
        exact List.mem_append.mpr (Or.inr (List.mem_singleton.mpr rfl))
      exact mem_sortSnapshots.mp hin
    have hlast_max : ∀ x ∈ sortSnapshots d.sorted_snapshots, x.created ≤ slast.created :=
      sorted_le_getLast (sortSnapshots_sorted _) hlast
    have hcc : slast.created = m.created :=
      le_antisymm (hm_max slast hlast_mem)
        (hlast_max m (mem_sortSnapshots.mpr hm_mem))
    have hmle : m.created ≤ now := hpast d hd m hm_mem
    have hrules : ∀ r ∈ d.retention_policy.rules,
        r.next_snapshot_in now d.sorted_snapshots =
          some ((slast.created + r.snapshot_period - now).toNat) :=
      fun r _ => rule_next_of_getLast hsne hlast
    rw [RetentionPolicy.next_snapshot_in, List.filterMap_congr hrules,
      filterMap_some_eq_map]
    have hvals : ∀ r : RetentionRule,
        ((slast.created + r.snapshot_period - now).toNat) =
          r.snapshot_period - m.elapsed now := by
      intro r
      rw [hcc, SnapshotMetadata.elapsed]
      exact toNat_add_sub_eq r.snapshot_period hmle
    obtain ⟨mp, hmp⟩ := @natMin?_of_ne_nil
      (d.retention_policy.rules.map fun r => r.snapshot_period)
      (by
        intro h
        exact hpol d hd (List.map_eq_nil_iff.mp h))
    obtain ⟨hmp_mem, hmp_le⟩ := natMin?_eq_some_iff.mp hmp
    have hshort : d.retention_policy.shortest_period = mp := by
      rw [RetentionPolicy.shortest_period, hmp]
      rfl
    rw [hshort]
    symm
    rw [natMin?_eq_some_iff]
    constructor
    · obtain ⟨r, hr, hrp⟩ := List.mem_map.mp hmp_mem
      refine List.mem_map.mpr ⟨r, hr, ?_⟩
      rw [hvals r, hrp]
    · intro b hb
      obtain ⟨r, hr, hrb⟩ := List.mem_map.mp hb
      rw [← hrb, hvals r]
      exact Nat.sub_le_sub_right
        (hmp_le r.snapshot_period (List.mem_map.mpr ⟨r, hr, rfl⟩)) _

/-- C5 counterexample: a single configured dataset with one snapshot dated
100 seconds after `now` and the single rule "retain 1 per 600s".  The daemon
sleeps `shortest_period - elapsed = 600 - 0 = 600` seconds while the §4.2
global minimum is `created + period - now = 700` seconds, so the claimed
equality fails; the dataset is otherwise well-formed (its snapshot belongs
to it and its policy is non-empty). -/
theorem daemon_sleep_counterexample :
    (∀ s ∈ ([⟨"a@x".toList, 100, 0⟩] : List SnapshotMetadata),
      SnapshotMetadata.dataset s = "a".toList) ∧
    ([(⟨600, 1⟩ : RetentionRule)] ≠ []) ∧
    daemon_sleep 0 [⟨"a".toList, ⟨[⟨600, 1⟩]⟩, [⟨"a@x".toList, 100, 0⟩]⟩] ≠
      spec_sleep 0 [⟨"a".toList, ⟨[⟨600, 1⟩]⟩, [⟨"a@x".toList, 100, 0⟩]⟩] := by
  exact ⟨by decide, by decide, by decide⟩

theorem daemon_sleep_matches_spec_witness :
    daemon_sleep 100000
        [(⟨"a".toList, ⟨[⟨600, 1⟩]⟩, [⟨"a@x".toList, 99700, 0⟩]⟩ : ConfiguredDataSet)] =
      spec_sleep 100000
        [(⟨"a".toList, ⟨[⟨600, 1⟩]⟩, [⟨"a@x".toList, 99700, 0⟩]⟩ : ConfiguredDataSet)] :=
  daemon_sleep_matches_spec 100000
    [⟨"a".toList, ⟨[⟨600, 1⟩]⟩, [⟨"a@x".toList, 99700, 0⟩]⟩]
    (by decide) (by decide) (by decide)
